import Mathlib

/-!
# Verification of the Event/Message Channel core (rc-patterns)

Shallow embedding of the two registry/dispatch components of the repository:

* the mediator chatroom, `src/Mediator/mediator.js` (constructor `Chatroom`,
  `Participant`, methods `register` and `send`);
* the observer subscription list, `src/Observer/observer.js` (constructor
  `Click`, methods `subscribe`, `unsubscribe`, `fire`).

JavaScript objects are modelled explicitly: participants are mutable records
addressed by numeric ids (`PId`), so reference comparison (`!==`) is id
comparison; the chatroom registry is the own-property table of a plain JS
object (an insertion-ordered association list with JS for-in enumeration
order); the observer handler array lives in an explicit heap so that the
aliasing between the array iterated by `forEach` and the field
`this.handlers` is represented faithfully.
-/

namespace RcPatterns

/-! ## Mediator: data model (src/Mediator/mediator.js) -/

/-- Object identity of a participant: JS object references are modelled as
numeric ids into the participant store, so `!==` is id inequality. -/
abbrev PId := Nat

/-- State of one `Participant` object: `new Participant(name)` sets
`this.name = name; this.chatroom = null` (lines 46-49).  The back-pointer
`chatroom` is `some ()` once `register` has set it to the (single) chatroom
of the model, `none` while it is still `null`. -/
structure Participant where
  name : String
  chatroom : Option Unit
deriving DecidableEq, Repr

/-- Constructor `new Participant(name)`: the name is stored and `chatroom` starts `null`. -/
def Participant.new (name : String) : Participant :=
  { name := name, chatroom := none }

/-- One invocation of `Participant.prototype.receive(message, from)`
(lines 55-57).  The `console.log` side effect is abstracted to this record
of the invocation: which object was entered, with which payload and sender. -/
structure Delivery where
  receiver : PId
  message : String
  sender : PId
deriving DecidableEq, Repr

/-- State of the world around one `Chatroom()` instance: the store of all
`Participant` objects (indexed by `PId`) and the own-property table of the
`participants` object (line 61), kept in property creation order. -/
structure MState where
  parts : List Participant
  registry : List (String × PId)
deriving DecidableEq, Repr

/-- Dereference a participant id (JS object access). -/
def MState.partAt (st : MState) (pid : PId) : Participant :=
  st.parts.getD pid (Participant.new "")

/-- Reads `participant.name` through the store. -/
def MState.pname (st : MState) (pid : PId) : String :=
  (st.partAt pid).name

/-- JS property write `obj[k] = v` on a plain object with unique keys: if the
key is present its value is replaced in place (property order unchanged),
otherwise a new own property is appended in creation order. -/
def jsSetProp (reg : List (String × PId)) (k : String) (v : PId) :
    List (String × PId) :=
  match reg with
  | [] => [(k, v)]
  | (k', v') :: rest =>
    if k' = k then (k, v) :: rest else (k', v') :: jsSetProp rest k v

/-- JS property read `obj[k]` (first matching key; keys are unique in the
states the program builds). -/
def jsGetProp (reg : List (String × PId)) (k : String) : Option PId :=
  match reg with
  | [] => none
  | (k', v) :: rest => if k' = k then some v else jsGetProp rest k

/-- Decimal value of one character, if it is a digit. -/
def digitVal (c : Char) : Option Nat :=
  if 48 ≤ c.toNat ∧ c.toNat ≤ 57 then some (c.toNat - 48) else none

/-- Decimal value of a character list, if every character is a digit. -/
def decimalVal : List Char → Nat → Option Nat
  | [], acc => some acc
  | c :: rest, acc =>
    match digitVal c with
    | some d => decimalVal rest (acc * 10 + d)
    | none => none

/-- A string property key that is a JS array index: the canonical decimal
form (digits only, no leading zero) of an integer below 2^32 - 1.  Such
keys are enumerated by for-in before all other string keys, in ascending
numeric order (ECMAScript OrdinaryOwnPropertyKeys). -/
def jsArrayIndex (s : String) : Option Nat :=
  match s.data with
  | [] => none
  | c :: rest =>
    if c = '0' ∧ rest ≠ [] then none
    else
      match decimalVal (c :: rest) 0 with
      | some n => if n < 4294967295 then some n else none
      | none => none

/-- Numeric value used to order array-index keys. -/
def idxVal (e : String × PId) : Nat :=
  (jsArrayIndex e.1).getD 0

/-- Insert one entry into a list of array-index entries, keeping ascending
numeric key order. -/
def insertIdx (e : String × PId) : List (String × PId) → List (String × PId)
  | [] => [e]
  | f :: rest =>
    if idxVal e ≤ idxVal f then e :: f :: rest else f :: insertIdx e rest

/-- Sort array-index entries by ascending numeric key. -/
def sortIdx : List (String × PId) → List (String × PId)
  | [] => []
  | e :: rest => insertIdx e (sortIdx rest)

/-- For-in enumeration order over the own properties of a plain JS object:
array-index keys first in ascending numeric order, then the remaining
string keys in property creation order (ECMAScript OrdinaryOwnPropertyKeys). -/
def forInKeys (reg : List (String × PId)) : List (String × PId) :=
  sortIdx (reg.filter (fun e => (jsArrayIndex e.1).isSome))
    ++ reg.filter (fun e => (jsArrayIndex e.1).isNone)

/-- Method `Participant.prototype.receive(message, from)` invoked on object `this`:
logs and returns; modelled as the produced `Delivery` record. -/
def Participant.receive (this : PId) (message : String) (fromP : PId) :
    Delivery :=
  { receiver := this, message := message, sender := fromP }

/-- The broadcast branch of `Chatroom.send` (lines 73-79):
`for (key in participants) if (participants[key] !== from)
participants[key].receive(message, from)`.  Enumeration follows for-in
order; the exclusion test compares object references (ids), not names. -/
def broadcastDeliveries (st : MState) (message : String) (sender : PId) :
    List Delivery :=
  ((forInKeys st.registry).filter (fun e => e.2 != sender)).map
    (fun e => Participant.receive e.2 message sender)

/-- The JS value passed as the `to` argument of `send`: a `Participant`
reference (truthy), `null`, or absent/`undefined` (both falsy). -/
inductive JTarget where
  | jpart (pid : PId)
  | jnull
  | jundef
deriving DecidableEq, Repr

/-- Method `Chatroom.send(message, from, to)` (lines 70-80).  `if (to)` tests JS
truthiness: a `Participant` object is truthy, so the unicast branch calls
`to.receive(message, from)` exactly once; `null` and `undefined` are falsy,
so both fall to the broadcast branch.  Returns the list of `receive`
invocations in order; no branch throws. -/
def Chatroom.send (st : MState) (message : String) (sender : PId)
    (tgt : JTarget) : List Delivery :=
  match tgt with
  | .jpart p => [Participant.receive p message sender]
  | .jnull => broadcastDeliveries st message sender
  | .jundef => broadcastDeliveries st message sender

/-- Method `Chatroom.register(participant)` (lines 65-68):
`participants[participant.name] = participant; participant.chatroom = this`.
Overwrites in place when the name is already a key; sets the back-pointer
on the registered object and touches no other participant. -/
def Chatroom.register (st : MState) (pid : PId) : MState :=
  { parts := st.parts.set pid { name := st.pname pid, chatroom := some () },
    registry := jsSetProp st.registry (st.pname pid) pid }

/-- The own-property names of the object literal returned by the `Chatroom`
constructor (lines 63-81): it exposes exactly `register` and `send`. -/
def chatroomMethods : List String := ["register", "send"]

/-- Modelled from the spec: `unregister(identity)` is specified for the
Participant Channel (spec section 4.3: "removes the entry; no-op if
absent") but is absent from `src/Mediator/mediator.js`; the `Chatroom`
object exposes only `register` and `send`.  Removal of the entries whose
key equals the identity, order of the rest preserved. -/
def Chatroom.unregister (st : MState) (identity : String) : MState :=
  { st with registry := st.registry.filter (fun e => e.1 != identity) }

/-- Method `Participant.prototype.send(message, to)` (lines 52-54):
`this.chatroom.send(message, this, to)`.  When `this.chatroom` is still
`null` the call throws a TypeError, modelled as `none`. -/
def Participant.send (st : MState) (pid : PId) (message : String)
    (tgt : JTarget) : Option (List Delivery) :=
  match (st.partAt pid).chatroom with
  | some _ => some (Chatroom.send st message pid tgt)
  | none => none

/-! ## Observer: data model (src/Observer/observer.js)

`Click` owns a mutable field `this.handlers`, a JS array of handler
functions.  `subscribe` pushes in place; `unsubscribe` REPLACES the field
with a fresh array built by `filter`; `fire` iterates with
`Array.prototype.forEach` over the array object referenced by
`this.handlers` at call time.  To capture this aliasing, arrays live in an
explicit heap (`heap`, indexed by allocation order) and the field is a
reference (`arr`) into it. -/

/-- Handler function references, modelled as numeric ids.  A JS function
object is always truthy. -/
abbrev Handler := Nat

/-- Truthiness of a handler value inside the `unsubscribe` filter callback:
the callback returns `item` (truthy for a function object) when
`item !== fn`, and `undefined` (falsy) otherwise. -/
def handlerTruthy (_h : Handler) : Bool := true

/-- Mutable state of one `Click` instance together with its array heap. -/
structure ClickState where
  heap : List (List Handler)
  arr : Nat
deriving DecidableEq, Repr

/-- Constructor `new Click()`: sets `this.handlers = []` (lines 63-65). -/
def Click.new : ClickState := { heap := [[]], arr := 0 }

/-- The array currently referenced by `this.handlers`. -/
def ClickState.handlers (st : ClickState) : List Handler :=
  st.heap.getD st.arr []

/-- Method `Click.prototype.subscribe(fn)` (lines 69-71): `this.handlers.push(fn)`
mutates the referenced array in place; the reference is unchanged. -/
def Click.subscribe (st : ClickState) (fn : Handler) : ClickState :=
  { st with heap := st.heap.set st.arr (st.handlers ++ [fn]) }

/-- The filter callback of `unsubscribe` (lines 75-79): keeps `item` when
`item !== fn` returns the (truthy) item, drops it when the callback falls
through returning `undefined`. -/
def unsubFilter (fn : Handler) (l : List Handler) : List Handler :=
  l.filter (fun item => item != fn && handlerTruthy item)

/-- Method `Click.prototype.unsubscribe(fn)` (lines 73-81):
`this.handlers = this.handlers.filter(...)` allocates a NEW array and
repoints the field at it; the previously referenced array is untouched. -/
def Click.unsubscribe (st : ClickState) (fn : Handler) : ClickState :=
  { heap := st.heap ++ [unsubFilter fn st.handlers], arr := st.heap.length }

/-- What a handler does when invoked: a sequence of calls back into the
`Click` instance, and whether it then throws. -/
inductive ClickOp where
  | sub (h : Handler)
  | unsub (h : Handler)
deriving DecidableEq, Repr

/-- Behaviour of a handler function: the `Click` calls its body performs,
then normal return (`throws = false`) or a thrown exception
(`throws = true`). -/
structure HBehavior where
  ops : List ClickOp
  throws : Bool
deriving DecidableEq, Repr

/-- Run the calls a handler body performs against the `Click` state. -/
def Click.runOps (st : ClickState) : List ClickOp → ClickState
  | [] => st
  | .sub h :: rest => Click.runOps (Click.subscribe st h) rest
  | .unsub h :: rest => Click.runOps (Click.unsubscribe st h) rest

/-- The `forEach` loop inside `fire` (lines 85-87), iterating the array
object `r` fixed at call time with the element count `k` remaining from
index `i` (forEach caches the initial length).  At each step the current
element of array `r` is read, the handler body runs, and a thrown
exception propagates out of the loop at once (there is no try/catch).
Result: final state, the handlers invoked in order, and whether an
exception escaped to the caller of `fire`. -/
def Click.fireAux (beh : Handler → HBehavior) (r : Nat) :
    Nat → Nat → ClickState → ClickState × List Handler × Bool
  | _, 0, st => (st, [], false)
  | i, k + 1, st =>
    match (st.heap.getD r [])[i]? with
    | none => Click.fireAux beh r (i + 1) k st
    | some h =>
      let st' := Click.runOps st (beh h).ops
      if (beh h).throws then (st', [h], true)
      else
        let rest := Click.fireAux beh r (i + 1) k st'
        (rest.1, h :: rest.2.1, rest.2.2)

/-- Method `Click.prototype.fire(o, thisObj)` (lines 83-88): resolves the scope
object (irrelevant to the model, handlers receive the event either way)
and runs `this.handlers.forEach(...)` on the array referenced at call
time.  `beh` gives the body of each handler function. -/
def Click.fire (st : ClickState) (beh : Handler → HBehavior) :
    ClickState × List Handler × Bool :=
  Click.fireAux beh st.arr 0 st.handlers.length st

/-- Reference dispatch: invocation order and escape behaviour expected on a
fixed snapshot list (first throwing handler ends the pass). -/
def runTrace (beh : Handler → HBehavior) : List Handler → List Handler × Bool
  | [] => ([], false)
  | h :: t =>
    if (beh h).throws then ([h], true)
    else
      let r := runTrace beh t
      (h :: r.1, r.2)

/-! ## Helper lemmas: mediator -/

/-- Inserting into the index-sorted run yields a permutation of consing. -/
lemma insertIdx_perm (e : String × PId) :
    ∀ l : List (String × PId), (insertIdx e l).Perm (e :: l) := by
  intro l
  induction l with
  | nil => simp [insertIdx]
  | cons f rest ih =>
    by_cases h : idxVal e ≤ idxVal f
    · simp [insertIdx, h]
    · simp only [insertIdx, if_neg h]
      exact (List.Perm.cons f ih).trans (List.Perm.swap e f rest)

/-- Sorting the array-index entries permutes them. -/
lemma sortIdx_perm : ∀ l : List (String × PId), (sortIdx l).Perm l := by
  intro l
  induction l with
  | nil => simp [sortIdx]
  | cons e rest ih =>
    exact (insertIdx_perm e (sortIdx rest)).trans (List.Perm.cons e ih)

/-- For-in enumeration is a permutation of the property table. -/
lemma forInKeys_perm (reg : List (String × PId)) : (forInKeys reg).Perm reg := by
  unfold forInKeys
  have h1 := sortIdx_perm (reg.filter (fun e => (jsArrayIndex e.1).isSome))
  have h2 := List.filter_append_perm (fun e => (jsArrayIndex e.1).isSome) reg
  refine (List.Perm.append h1 (List.Perm.refl _)).trans ?_
  refine List.Perm.trans ?_ h2
  apply List.Perm.append (List.Perm.refl _)
  apply List.Perm.of_eq
  apply List.filter_congr
  intro e _
  simp [Option.isNone_iff_eq_none, Bool.not_eq_true', Option.not_isSome_iff_eq_none]

/-- When no key is an array index, for-in order is property creation order. -/
lemma forInKeys_eq_of_nonindex (reg : List (String × PId))
    (h : ∀ e ∈ reg, jsArrayIndex e.1 = none) : forInKeys reg = reg := by
  unfold forInKeys
  have h1 : reg.filter (fun e => (jsArrayIndex e.1).isSome) = [] := by
    rw [List.filter_eq_nil_iff]
    intro e he
    simp [h e he]
  have h2 : reg.filter (fun e => (jsArrayIndex e.1).isNone) = reg := by
    rw [List.filter_eq_self]
    intro e he
    simp [h e he]
  rw [h1, h2, sortIdx, List.nil_append]

/-- Every delivery of a broadcast comes from a registry entry whose value is
not reference-equal to the sender. -/
lemma mem_broadcastDeliveries {st : MState} {msg : String} {s : PId}
    {d : Delivery} (hd : d ∈ broadcastDeliveries st msg s) :
    ∃ e ∈ st.registry, e.2 = d.receiver ∧ e.2 ≠ s ∧
      d = Participant.receive e.2 msg s := by
  simp only [broadcastDeliveries, List.mem_map, List.mem_filter] at hd
  obtain ⟨e, ⟨he, hne⟩, rfl⟩ := hd
  exact ⟨e, (forInKeys_perm st.registry).mem_iff.mp he, rfl,
    by simpa using hne, rfl⟩

/-- Every registry entry not reference-equal to the sender is delivered to. -/
lemma broadcast_mem_of_entry {st : MState} {msg : String} {s : PId}
    {e : String × PId} (he : e ∈ st.registry) (hne : e.2 ≠ s) :
    Participant.receive e.2 msg s ∈ broadcastDeliveries st msg s := by
  simp only [broadcastDeliveries, List.mem_map]
  refine ⟨e, ?_, rfl⟩
  rw [List.mem_filter]
  exact ⟨(forInKeys_perm st.registry).mem_iff.mpr he, by simpa using hne⟩

/-- Entries of a property write: old entries, or the written pair. -/
lemma jsSetProp_mem {reg : List (String × PId)} {k : String} {v : PId}
    {e : String × PId} (he : e ∈ jsSetProp reg k v) :
    e ∈ reg ∨ e = (k, v) := by
  induction reg with
  | nil => simpa [jsSetProp] using he
  | cons f rest ih =>
    by_cases h : f.1 = k
    · rw [show f = (f.1, f.2) from rfl] at he
      simp only [jsSetProp, if_pos h] at he
      rcases List.mem_cons.mp he with h1 | h1
      · exact Or.inr h1
      · exact Or.inl (List.mem_cons_of_mem _ h1)
    · rw [show f = (f.1, f.2) from rfl] at he
      simp only [jsSetProp, if_neg h] at he
      rcases List.mem_cons.mp he with h1 | h1
      · exact Or.inl (h1 ▸ List.mem_cons_self _ _)
      · rcases ih h1 with h2 | h2
        · exact Or.inl (List.mem_cons_of_mem _ h2)
        · exact Or.inr h2

/-- A property write on a present key replaces the value in place. -/
lemma jsSetProp_split (l₁ l₂ : List (String × PId)) (k : String) (p1 p2 : PId)
    (hk : ∀ e ∈ l₁, e.1 ≠ k) :
    jsSetProp (l₁ ++ (k, p1) :: l₂) k p2 = l₁ ++ (k, p2) :: l₂ := by
  induction l₁ with
  | nil => simp [jsSetProp]
  | cons f rest ih =>
    have hf : f.1 ≠ k := hk f (List.mem_cons_self _ _)
    rw [show f = (f.1, f.2) from rfl]
    simp only [List.cons_append, jsSetProp, if_neg hf, List.append_eq]
    rw [ih (fun e he => hk e (List.mem_cons_of_mem _ he))]

/-- Property read after the in-place replacement finds the new value. -/
lemma jsGetProp_split (l₁ l₂ : List (String × PId)) (k : String) (v : PId)
    (hk : ∀ e ∈ l₁, e.1 ≠ k) :
    jsGetProp (l₁ ++ (k, v) :: l₂) k = some v := by
  induction l₁ with
  | nil => simp [jsGetProp]
  | cons f rest ih =>
    have hf : f.1 ≠ k := hk f (List.mem_cons_self _ _)
    rw [show f = (f.1, f.2) from rfl]
    simp only [List.cons_append, jsGetProp, if_neg hf, List.append_eq]
    exact ih (fun e he => hk e (List.mem_cons_of_mem _ he))

/-! ## Claim theorems: mediator -/

/-- C1 (counterexample): the broadcast self-exclusion of `Chatroom.send`
compares object references, not identities.  Two distinct `Participant`
objects both named "A" are created; registering the second overwrites the
entry of the first.  A broadcast sent by the first (the overwritten
object, no longer registered) DOES invoke `receive` on the entry
registered under the sender name — the claim says that entry is never
invoked. -/
theorem broadcast_invokes_entry_under_sender_name :
    Chatroom.send
        (Chatroom.register (Chatroom.register
          ⟨[⟨"A", none⟩, ⟨"A", none⟩], []⟩ 0) 1) "m" 0 .jnull
      = [Participant.receive 1 "m" 0] ∧
    (Chatroom.register (Chatroom.register
        ⟨[⟨"A", none⟩, ⟨"A", none⟩], []⟩ 0) 1).pname 1
      = (Chatroom.register (Chatroom.register
        ⟨[⟨"A", none⟩, ⟨"A", none⟩], []⟩ 0) 1).pname 0 := by
  decide

/-- C1 (amended): broadcast `send(message, from)` invokes
`participant.receive(message, from)` on every registry entry except those
whose stored reference is `from` itself (`!==` comparison): the sender
reference is never re-entered, but exclusion is by reference, not by
identity, so an entry registered under the name of `from` that holds a
different object reference is still invoked. -/
theorem broadcast_excludes_sender_by_reference
    (st : MState) (msg : String) (s : PId) :
    (∀ d ∈ Chatroom.send st msg s .jnull, d.receiver ≠ s) ∧
    (∀ e ∈ st.registry, e.2 ≠ s →
      Participant.receive e.2 msg s ∈ Chatroom.send st msg s .jnull) := by
  constructor
  · intro d hd
    obtain ⟨e, _, he2, hne, rfl⟩ := mem_broadcastDeliveries hd
    simpa [Participant.receive] using hne
  · intro e he hne
    exact broadcast_mem_of_entry he hne

/-- Witness for C1 (amended) at a concrete channel state. -/
theorem broadcast_excludes_sender_by_reference_witness :
    Participant.receive 1 "m" 0 ∈
      Chatroom.send ⟨[⟨"A", none⟩, ⟨"B", none⟩], [("B", 1)]⟩ "m" 0 .jnull :=
  (broadcast_excludes_sender_by_reference
    ⟨[⟨"A", none⟩, ⟨"B", none⟩], [("B", 1)]⟩ "m" 0).2
    ("B", 1) (by decide) (by decide)

/-- C3 (counterexample): broadcast delivery order does NOT equal
registration order for every choice of names.  Registering names "A", "2",
"1" in that order and broadcasting from "A": JS for-in enumerates the
array-index keys "1" and "2" in ascending numeric order before any other
key, so the entry registered third is delivered to first. -/
theorem broadcast_numeric_names_break_registration_order :
    Chatroom.send
        (Chatroom.register (Chatroom.register (Chatroom.register
          ⟨[⟨"A", none⟩, ⟨"2", none⟩, ⟨"1", none⟩], []⟩ 0) 1) 2)
        "m" 0 .jnull
      = [Participant.receive 2 "m" 0, Participant.receive 1 "m" 0] ∧
    Chatroom.send
        (Chatroom.register (Chatroom.register (Chatroom.register
          ⟨[⟨"A", none⟩, ⟨"2", none⟩, ⟨"1", none⟩], []⟩ 0) 1) 2)
        "m" 0 .jnull
      ≠ [Participant.receive 1 "m" 0, Participant.receive 2 "m" 0] := by
  decide

/-- C3 (amended): provided no participant name is a JS array-index string,
broadcast delivers to exactly the registry entries whose reference differs
from the sender, in registration (property creation) order, each entry
exactly once (the delivery list repeats no invocation when the registered
references are pairwise distinct), and never to the sender reference. -/
theorem broadcast_in_registration_order_nonindex
    (st : MState) (msg : String) (s : PId)
    (hkeys : ∀ e ∈ st.registry, jsArrayIndex e.1 = none)
    (hpids : (st.registry.map Prod.snd).Nodup) :
    Chatroom.send st msg s .jnull
      = (st.registry.filter (fun e => e.2 != s)).map
          (fun e => Participant.receive e.2 msg s) ∧
    (Chatroom.send st msg s .jnull).Nodup ∧
    (∀ d ∈ Chatroom.send st msg s .jnull, d.receiver ≠ s) := by
  have hfe : forInKeys st.registry = st.registry :=
    forInKeys_eq_of_nonindex st.registry hkeys
  have h1 : Chatroom.send st msg s .jnull
      = (st.registry.filter (fun e => e.2 != s)).map
          (fun e => Participant.receive e.2 msg s) := by
    show broadcastDeliveries st msg s = _
    rw [broadcastDeliveries, hfe]
  refine ⟨h1, ?_, ?_⟩
  · rw [h1]
    have hsub : ((st.registry.filter (fun e => e.2 != s)).map Prod.snd).Sublist
        (st.registry.map Prod.snd) :=
      List.Sublist.map Prod.snd (List.filter_sublist st.registry)
    have hnd : ((st.registry.filter (fun e => e.2 != s)).map Prod.snd).Nodup :=
      List.Nodup.sublist hsub hpids
    apply List.Nodup.of_map Delivery.receiver
    rw [List.map_map]
    exact hnd
  · intro d hd
    obtain ⟨e, _, he2, hne, rfl⟩ := mem_broadcastDeliveries hd
    simpa [Participant.receive] using hne

/-- Witness for C3 (amended): three distinct non-numeric names registered
in order; broadcast from the first delivers to the second then the third. -/
theorem broadcast_in_registration_order_nonindex_witness :
    Chatroom.send
        ⟨[⟨"A", none⟩, ⟨"B", none⟩, ⟨"C", none⟩],
          [("A", 0), ("B", 1), ("C", 2)]⟩ "m" 0 .jnull
      = [Participant.receive 1 "m" 0, Participant.receive 2 "m" 0] :=
  ((broadcast_in_registration_order_nonindex
      ⟨[⟨"A", none⟩, ⟨"B", none⟩, ⟨"C", none⟩],
        [("A", 0), ("B", 1), ("C", 2)]⟩ "m" 0
      (by decide) (by decide)).1).trans (by decide)

/-- C4 (confirmed): `send(msg, A, B)` with a direct `Participant` reference
`B` (registered or not) invokes exactly `B.receive(msg, A)` once, invokes
no other receive, and never consults the registry: the result is the same
for every registry contents. -/
theorem unicast_delivers_exactly_once
    (st : MState) (msg : String) (a b : PId) :
    Chatroom.send st msg a (.jpart b) = [Participant.receive b msg a] ∧
    (∀ reg : List (String × PId),
      Chatroom.send ⟨st.parts, reg⟩ msg a (.jpart b)
        = [Participant.receive b msg a]) :=
  ⟨rfl, fun _ => rfl⟩

/-- C5 (confirmed): registering a participant whose name is already a key
replaces the prior entry in place: the registry keeps its length and its
key sequence (hence the position of the entry), and the identity resolves
to the newly registered reference; `register` reports no error (it is a
total operation). -/
theorem register_overwrites_in_place
    (st : MState) (l₁ l₂ : List (String × PId)) (k : String) (p1 p2 : PId)
    (hsplit : st.registry = l₁ ++ (k, p1) :: l₂)
    (hk : ∀ e ∈ l₁, e.1 ≠ k)
    (hname : st.pname p2 = k) :
    (Chatroom.register st p2).registry = l₁ ++ (k, p2) :: l₂ ∧
    (Chatroom.register st p2).registry.length = st.registry.length ∧
    (Chatroom.register st p2).registry.map Prod.fst
      = st.registry.map Prod.fst ∧
    jsGetProp (Chatroom.register st p2).registry k = some p2 := by
  have hreg : (Chatroom.register st p2).registry = l₁ ++ (k, p2) :: l₂ := by
    show jsSetProp st.registry (st.pname p2) p2 = _
    rw [hname, hsplit]
    exact jsSetProp_split l₁ l₂ k p1 p2 hk
  refine ⟨hreg, ?_, ?_, ?_⟩
  · rw [hreg, hsplit]; simp
  · rw [hreg, hsplit]; simp
  · rw [hreg]; exact jsGetProp_split l₁ l₂ k p2 hk

/-- Witness for C5: overwriting the single entry "A". -/
theorem register_overwrites_in_place_witness :
    (Chatroom.register ⟨[⟨"A", none⟩, ⟨"A", none⟩], [("A", 0)]⟩ 1).registry
      = [("A", 1)] :=
  (register_overwrites_in_place ⟨[⟨"A", none⟩, ⟨"A", none⟩], [("A", 0)]⟩
    [] [] "A" 0 1 rfl (by simp) rfl).1

/-- C6 (counterexample): the object returned by the `Chatroom` constructor
exposes only `register` and `send`; it provides no `unregister` operation. -/
theorem chatroom_provides_no_unregister :
    "unregister" ∉ chatroomMethods := by
  decide

/-- C6 (amended): the `Chatroom` of the source provides no `unregister`;
for the `unregister(identity)` operation that section 4.3 of the design
specifies (modelled from the spec as removal of the entries keyed by the
identity), `register(p)` followed by `unregister(p.name)` leaves no entry
holding `p` (assuming `p` was not already registered under another name,
which `register` can never produce), a subsequent broadcast never invokes
`p.receive`, and unregistering an identity that is not a key is a no-op. -/
theorem unregister_removes_entry_and_broadcast_skips
    (st : MState) (pid : PId) (msg : String) (s : PId)
    (hnotin : ∀ e ∈ st.registry, e.2 ≠ pid) :
    (∀ e ∈ (Chatroom.unregister (Chatroom.register st pid)
        (st.pname pid)).registry, e.2 ≠ pid) ∧
    (∀ d ∈ Chatroom.send (Chatroom.unregister (Chatroom.register st pid)
        (st.pname pid)) msg s .jnull, d.receiver ≠ pid) ∧
    (∀ ident, (∀ e ∈ st.registry, e.1 ≠ ident) →
      Chatroom.unregister st ident = st) := by
  have hmem : ∀ e ∈ (Chatroom.unregister (Chatroom.register st pid)
      (st.pname pid)).registry, e.2 ≠ pid := by
    intro e he
    have he' : e ∈ (Chatroom.register st pid).registry ∧
        (e.1 != st.pname pid) = true := List.mem_filter.mp he
    rcases jsSetProp_mem he'.1 with h1 | h1
    · exact hnotin e h1
    · exfalso
      have : e.1 = st.pname pid := by rw [h1]
      simpa [this] using he'.2
  refine ⟨hmem, ?_, ?_⟩
  · intro d hd
    obtain ⟨e, he, he2, _, _⟩ := mem_broadcastDeliveries hd
    exact he2 ▸ hmem e he
  · intro ident hid
    obtain ⟨parts, reg⟩ := st
    show MState.mk parts (reg.filter fun e => e.1 != ident) = ⟨parts, reg⟩
    have : reg.filter (fun e => e.1 != ident) = reg := by
      rw [List.filter_eq_self]
      intro e he
      simpa using hid e he
    rw [this]

/-- Witness for C6 (amended): unregistering the only registered name leaves
a registry with no entry for that participant; unregistering an absent
identity changes nothing. -/
theorem unregister_removes_entry_and_broadcast_skips_witness :
    Chatroom.unregister ⟨[⟨"A", none⟩, ⟨"B", none⟩], [("B", 1)]⟩ "C"
      = ⟨[⟨"A", none⟩, ⟨"B", none⟩], [("B", 1)]⟩ :=
  (unregister_removes_entry_and_broadcast_skips
    ⟨[⟨"A", none⟩, ⟨"B", none⟩], [("B", 1)]⟩ 0 "m" 1
    (by decide)).2.2 "C" (by decide)

/-- C7 (counterexample): `send` with a `null` target raises nothing and
performs a broadcast instead.  With sender 0 and the sole registered
participant 1, `send("m", 0, null)` delivers to participant 1 — delivery
takes place, no InvalidRecipient condition reaches the caller. -/
theorem send_null_target_broadcasts :
    Chatroom.send
        (Chatroom.register ⟨[⟨"A", none⟩, ⟨"B", none⟩], []⟩ 1) "m" 0 .jnull
      = [Participant.receive 1 "m" 0] := by
  decide

/-- C7 (amended): `if (to)` treats a `null` target exactly like an absent
one: both are falsy, so `send` falls through to the broadcast branch and
delivers to the registered entries (excluding the sender reference); no
error is raised (the function is total, returning the delivery list). -/
theorem send_null_target_is_broadcast
    (st : MState) (msg : String) (s : PId) :
    Chatroom.send st msg s .jnull = Chatroom.send st msg s .jundef ∧
    Chatroom.send st msg s .jnull = broadcastDeliveries st msg s :=
  ⟨rfl, rfl⟩

/-- C10 (confirmed): `register(p)` sets `p.chatroom` to the channel and
changes nothing else: the name of `p` is untouched, every other
participant object is untouched, the store keeps its size; and after
registration the participant-level `p.send(msg, to)` performs exactly the
channel-level `send(msg, p, to)`. -/
theorem register_backlink_and_frame
    (st : MState) (pid : PId) (msg : String) (tgt : JTarget)
    (hlt : pid < st.parts.length) :
    (Chatroom.register st pid).partAt pid
      = { name := st.pname pid, chatroom := some () } ∧
    (∀ q, q ≠ pid → (Chatroom.register st pid).partAt q = st.partAt q) ∧
    (Chatroom.register st pid).parts.length = st.parts.length ∧
    Participant.send (Chatroom.register st pid) pid msg tgt
      = some (Chatroom.send (Chatroom.register st pid) msg pid tgt) := by
  have hself : (Chatroom.register st pid).partAt pid
      = { name := st.pname pid, chatroom := some () } := by
    show (st.parts.set pid _).getD pid _ = _
    rw [List.getD_eq_getElem?_getD, List.getElem?_set_self hlt]
    rfl
  refine ⟨hself, ?_, ?_, ?_⟩
  · intro q hq
    show (st.parts.set pid _).getD q _ = st.parts.getD q _
    rw [List.getD_eq_getElem?_getD, List.getElem?_set_ne (fun h => hq h.symm),
      ← List.getD_eq_getElem?_getD]
  · exact st.parts.length_set pid _
  · show Participant.send _ pid msg tgt = _
    rw [Participant.send, hself]

/-- Witness for C10 at a concrete participant. -/
theorem register_backlink_and_frame_witness :
    Participant.send (Chatroom.register ⟨[⟨"A", none⟩], []⟩ 0) 0 "m" .jundef
      = some (Chatroom.send (Chatroom.register ⟨[⟨"A", none⟩], []⟩ 0)
          "m" 0 .jundef) :=
  (register_backlink_and_frame ⟨[⟨"A", none⟩], []⟩ 0 "m" .jundef
    (by decide)).2.2.2

/-! ## Helper lemmas: observer

The array object `r` that `forEach` iterates is never mutated below the
initial length: `subscribe` only appends (to whichever array the field
points at), and `unsubscribe` allocates a fresh array instead of editing
the old one.  Hence the first `n` elements of any array are invariant
under every `Click` call a handler can make. -/

/-- One `subscribe` preserves the first `n` elements of every array. -/
lemma subscribe_take (st : ClickState) (fn : Handler) (r n : Nat)
    (h : n ≤ (st.heap.getD r []).length) :
    ((Click.subscribe st fn).heap.getD r []).take n
      = (st.heap.getD r []).take n ∧
    n ≤ ((Click.subscribe st fn).heap.getD r []).length := by
  by_cases harr : st.arr = r
  · subst harr
    by_cases hlen : st.arr < st.heap.length
    · have hget : (Click.subscribe st fn).heap.getD st.arr []
          = st.handlers ++ [fn] := by
        show (st.heap.set st.arr _).getD st.arr [] = _
        rw [List.getD_eq_getElem?_getD, List.getElem?_set_self hlen]
        rfl
      rw [hget]
      have h' : n ≤ st.handlers.length := h
      refine ⟨List.take_append_of_le_length h', ?_⟩
      rw [List.length_append]
      omega
    · have hD : st.heap.getD st.arr [] = [] := by
        rw [List.getD_eq_getElem?_getD, List.getElem?_eq_none (by omega)]
        rfl
      have hn : n = 0 := by
        rw [hD] at h
        simpa using h
      subst hn
      simp
  · have hget : (Click.subscribe st fn).heap.getD r []
        = st.heap.getD r [] := by
      show (st.heap.set st.arr _).getD r [] = _
      rw [List.getD_eq_getElem?_getD, List.getElem?_set_ne harr,
        ← List.getD_eq_getElem?_getD]
    rw [hget]
    exact ⟨rfl, h⟩

/-- One `unsubscribe` preserves the first `n` elements of every array: the
fresh filtered array is appended at a new heap address. -/
lemma unsubscribe_take (st : ClickState) (fn : Handler) (r n : Nat)
    (h : n ≤ (st.heap.getD r []).length) :
    ((Click.unsubscribe st fn).heap.getD r []).take n
      = (st.heap.getD r []).take n ∧
    n ≤ ((Click.unsubscribe st fn).heap.getD r []).length := by
  by_cases hlen : r < st.heap.length
  · have hget : (Click.unsubscribe st fn).heap.getD r []
        = st.heap.getD r [] := by
      show (st.heap ++ [_]).getD r [] = _
      rw [List.getD_eq_getElem?_getD, List.getElem?_append,
        if_pos hlen, ← List.getD_eq_getElem?_getD]
    rw [hget]
    exact ⟨rfl, h⟩
  · have hD : st.heap.getD r [] = [] := by
      rw [List.getD_eq_getElem?_getD, List.getElem?_eq_none (by omega)]
      rfl
    have hn : n = 0 := by
      rw [hD] at h
      simpa using h
    subst hn
    simp

/-- A handler body, whatever `Click` calls it makes, preserves the first
`n` elements of every array. -/
lemma runOps_take (r n : Nat) :
    ∀ (ops : List ClickOp) (st : ClickState),
      n ≤ (st.heap.getD r []).length →
      ((Click.runOps st ops).heap.getD r []).take n
        = (st.heap.getD r []).take n ∧
      n ≤ ((Click.runOps st ops).heap.getD r []).length := by
  intro ops
  induction ops with
  | nil => intro st h; exact ⟨rfl, h⟩
  | cons op rest ih =>
    intro st h
    cases op with
    | sub fn =>
      obtain ⟨h1, h2⟩ := subscribe_take st fn r n h
      obtain ⟨h3, h4⟩ := ih (Click.subscribe st fn) h2
      exact ⟨h3.trans h1, h4⟩
    | unsub fn =>
      obtain ⟨h1, h2⟩ := unsubscribe_take st fn r n h
      obtain ⟨h3, h4⟩ := ih (Click.unsubscribe st fn) h2
      exact ⟨h3.trans h1, h4⟩

/-- Unfolding step of the `forEach` loop. -/
lemma fireAux_succ (beh : Handler → HBehavior) (r i k : Nat)
    (st : ClickState) :
    Click.fireAux beh r i (k + 1) st =
      match (st.heap.getD r [])[i]? with
      | none => Click.fireAux beh r (i + 1) k st
      | some h =>
        let st' := Click.runOps st (beh h).ops
        if (beh h).throws then (st', [h], true)
        else
          let rest := Click.fireAux beh r (i + 1) k st'
          (rest.1, h :: rest.2.1, rest.2.2) := rfl

/-- The `forEach` loop of `fire` invokes exactly the handlers of the array
fixed at call time, as `runTrace` describes: in element order, ending at
the first handler that throws. -/
lemma fireAux_eq_runTrace (beh : Handler → HBehavior) (r : Nat)
    (arr : List Handler) :
    ∀ (k i : Nat) (st : ClickState), i + k = arr.length →
      (st.heap.getD r []).take arr.length = arr →
      (Click.fireAux beh r i k st).2 = runTrace beh (arr.drop i) := by
  intro k
  induction k with
  | zero =>
    intro i st hik htake
    have hi : i = arr.length := by omega
    subst hi
    simp [Click.fireAux, List.drop_length, runTrace]
  | succ k ih =>
    intro i st hik htake
    have hi : i < arr.length := by omega
    have hlen : arr.length ≤ (st.heap.getD r []).length := by
      have hct := congrArg List.length htake
      rw [List.length_take] at hct
      exact min_eq_left_iff.mp hct
    have hread : (st.heap.getD r [])[i]? = some arr[i] := by
      have h1 : ((st.heap.getD r []).take arr.length)[i]? = arr[i]? := by
        rw [htake]
      rw [List.getElem?_take, if_pos hi] at h1
      rw [h1]
      exact List.getElem?_eq_getElem hi
    have hdrop : arr.drop i = arr[i] :: arr.drop (i + 1) :=
      List.drop_eq_getElem_cons hi
    rw [fireAux_succ, hread]
    dsimp only
    by_cases hth : (beh arr[i]).throws
    · rw [if_pos hth, hdrop]
      simp only [runTrace]
      rw [if_pos hth]
    · have htake' : ((Click.runOps st (beh arr[i]).ops).heap.getD r
          []).take arr.length = arr :=
        ((runOps_take r arr.length (beh arr[i]).ops st hlen).1).trans htake
      have hrec := ih (i + 1) (Click.runOps st (beh arr[i]).ops)
        (by omega) htake'
      rw [if_neg hth, hdrop]
      simp only [runTrace]
      rw [if_neg hth, hrec]

/-- The call to `fire` dispatches over the array referenced at call time. -/
lemma fire_eq_runTrace (st : ClickState) (beh : Handler → HBehavior) :
    (Click.fire st beh).2 = runTrace beh st.handlers := by
  have h := fireAux_eq_runTrace beh st.arr st.handlers
    st.handlers.length 0 st (by omega)
    (by rw [show st.heap.getD st.arr [] = st.handlers from rfl,
      List.take_length])
  simpa [Click.fire] using h

/-- Without a throw, every snapshot handler is invoked, in order. -/
lemma runTrace_nothrow (beh : Handler → HBehavior) :
    ∀ l : List Handler, (∀ h ∈ l, (beh h).throws = false) →
      runTrace beh l = (l, false) := by
  intro l
  induction l with
  | nil => intro _; rfl
  | cons h t ih =>
    intro hl
    have hh : (beh h).throws = false := hl h (List.mem_cons_self _ _)
    have ht := ih (fun x hx => hl x (List.mem_cons_of_mem _ hx))
    simp [runTrace, hh, ht]

/-- A throw ends the pass at the throwing handler and escapes. -/
lemma runTrace_throw (beh : Handler → HBehavior) (t : Handler)
    (ht : (beh t).throws = true) :
    ∀ (pre post : List Handler), (∀ h ∈ pre, (beh h).throws = false) →
      runTrace beh (pre ++ t :: post) = (pre ++ [t], true) := by
  intro pre
  induction pre with
  | nil => intro post _; simp [runTrace, ht]
  | cons h rest ih =>
    intro post hpre
    have hh : (beh h).throws = false := hpre h (List.mem_cons_self _ _)
    have hr := ih post (fun x hx => hpre x (List.mem_cons_of_mem _ hx))
    simp [runTrace, hh, hr]

/-! ## Claim theorems: observer -/

/-- C2 (counterexample): `fire` has no try/catch around the handler calls:
with handlers 0 and 1 subscribed in that order and handler 0 throwing,
the pass invokes only handler 0 — handler 1, subsequent in the same pass,
is NOT invoked — and the exception escapes to the caller of `fire`
(final `true`), instead of being caught and reported. -/
theorem fire_throw_skips_subsequent_handlers :
    (Click.fire (Click.subscribe (Click.subscribe Click.new 0) 1)
        (fun h => if h = 0 then ⟨[], true⟩ else ⟨[], false⟩)).2
      = ([0], true) := by
  decide

/-- C2 (amended): when a handler throws during `fire`, the handlers before
it in the pass have been invoked, the throwing handler ends the pass
(subsequent handlers of the same pass are not invoked), and the exception
propagates to the caller of `fire`. -/
theorem fire_throw_aborts_and_propagates
    (st : ClickState) (beh : Handler → HBehavior)
    (pre post : List Handler) (t : Handler)
    (hsnap : st.handlers = pre ++ t :: post)
    (hpre : ∀ h ∈ pre, (beh h).throws = false)
    (ht : (beh t).throws = true) :
    (Click.fire st beh).2.1 = pre ++ [t] ∧
    (Click.fire st beh).2.2 = true := by
  have hm : (Click.fire st beh).2 = (pre ++ [t], true) := by
    rw [fire_eq_runTrace, hsnap, runTrace_throw beh t ht pre post hpre]
  exact ⟨congrArg Prod.fst hm, congrArg Prod.snd hm⟩

/-- Witness for C2 (amended): handler 5 throws first; the pass is `[5]`
and the exception escapes. -/
theorem fire_throw_aborts_and_propagates_witness :
    (Click.fire (Click.subscribe (Click.subscribe Click.new 5) 7)
        (fun h => if h = 5 then ⟨[], true⟩ else ⟨[], false⟩)).2.1 = [5] ∧
    (Click.fire (Click.subscribe (Click.subscribe Click.new 5) 7)
        (fun h => if h = 5 then ⟨[], true⟩ else ⟨[], false⟩)).2.2 = true :=
  fire_throw_aborts_and_propagates _ _ [] [7] 5 (by decide) (by decide)
    (by decide)

/-- C8 (confirmed): `fire` dispatches against the array referenced by
`this.handlers` at the moment of the call.  Whatever `subscribe` and
`unsubscribe` calls the handlers make during their own invocations
(`unsubscribe` replaces the field with a freshly filtered array and never
edits the iterated one), every handler present when the pass started is
invoked, in order, and the number of invocations equals the handler count
at fire time.  (Stated for passes in which no handler throws; throwing
handlers are the subject of claim C2.) -/
theorem fire_dispatches_call_time_snapshot
    (st : ClickState) (beh : Handler → HBehavior)
    (hnt : ∀ h ∈ st.handlers, (beh h).throws = false) :
    (Click.fire st beh).2.1 = st.handlers ∧
    (Click.fire st beh).2.1.length = st.handlers.length ∧
    (Click.fire st beh).2.2 = false := by
  have hm : (Click.fire st beh).2 = (st.handlers, false) := by
    rw [fire_eq_runTrace, runTrace_nothrow beh st.handlers hnt]
  refine ⟨congrArg Prod.fst hm, ?_, congrArg Prod.snd hm⟩
  rw [congrArg Prod.fst hm]

/-- Witness for C8: handler 0 unsubscribes itself during its invocation;
handler 1, in the same pass, is still invoked, and the pass count is 2. -/
theorem fire_dispatches_call_time_snapshot_witness :
    (Click.fire (Click.subscribe (Click.subscribe Click.new 0) 1)
        (fun h => if h = 0 then ⟨[ClickOp.unsub 0], false⟩
          else ⟨[], false⟩)).2.1 = [0, 1] ∧
    (Click.fire (Click.subscribe (Click.subscribe Click.new 0) 1)
        (fun h => if h = 0 then ⟨[ClickOp.unsub 0], false⟩
          else ⟨[], false⟩)).2.2 = false :=
  have h := fire_dispatches_call_time_snapshot
    (Click.subscribe (Click.subscribe Click.new 0) 1)
    (fun h => if h = 0 then ⟨[ClickOp.unsub 0], false⟩ else ⟨[], false⟩)
    (by decide)
  ⟨h.1, h.2.2⟩

/-- C9 (confirmed): `unsubscribe(fn)` rebuilds the handler array with
`filter`, so it removes every occurrence of `fn` (count drops to zero on
any state, hence after any number of `subscribe(fn)` calls), and it is
idempotent: filtering twice yields the same list as filtering once, both
on raw lists and on the `Click` state. -/
theorem unsubscribe_removes_all_and_idempotent
    (st : ClickState) (fn : Handler) :
    (Click.unsubscribe st fn).handlers = unsubFilter fn st.handlers ∧
    (Click.unsubscribe st fn).handlers.count fn = 0 ∧
    (∀ l : List Handler,
      unsubFilter fn (unsubFilter fn l) = unsubFilter fn l) ∧
    (Click.unsubscribe (Click.unsubscribe st fn) fn).handlers
      = (Click.unsubscribe st fn).handlers := by
  have hh : ∀ s : ClickState,
      (Click.unsubscribe s fn).handlers = unsubFilter fn s.handlers := by
    intro s
    show (s.heap ++ [unsubFilter fn s.handlers]).getD s.heap.length [] = _
    rw [List.getD_eq_getElem?_getD, List.getElem?_concat_length]
    rfl
  have hidem : ∀ l : List Handler,
      unsubFilter fn (unsubFilter fn l) = unsubFilter fn l := by
    intro l
    have huf : unsubFilter fn (unsubFilter fn l)
        = List.filter (fun item => item != fn && handlerTruthy item)
          (unsubFilter fn l) := rfl
    rw [huf, List.filter_eq_self]
    intro a ha
    have ha' : a ∈ List.filter
        (fun item => item != fn && handlerTruthy item) l := ha
    exact @List.of_mem_filter _ (fun item => item != fn && handlerTruthy item)
      a l ha'
  refine ⟨hh st, ?_, hidem, ?_⟩
  · rw [hh st, List.count_eq_zero]
    intro hmem
    have hmem' : fn ∈ List.filter
        (fun item => item != fn && handlerTruthy item) st.handlers := hmem
    have hp := @List.of_mem_filter _
      (fun item => item != fn && handlerTruthy item) fn st.handlers hmem'
    simp [handlerTruthy] at hp
  · rw [hh (Click.unsubscribe st fn), hh st, hidem]

end RcPatterns
